import Mathlib

/-!
Verification of the GitHub user/repository scraper (`code.py`).

The script fetches GitHub users for a location/follower query, enriches each
user with a detail fetch and a capped repository listing, normalizes fields,
and writes two tables.  We shallowly embed the pure normalization helpers
(`clean_company`, `handle_boolean`, `get_github_token`), the two pagination
loops (`fetch_users`, `fetch_repositories`) over an abstract sequence of HTTP
responses, and the record-building loop of `main`.

Python strings are modelled as `List Char`; heterogeneous JSON values as
`PyVal`; dictionaries (only the license sub-object needs genuine dictionary
access) as association lists; a `None`-able value as `Option`.  `requests`
responses are modelled by a `Page` record carrying the HTTP status, the parsed
items of the page, and whether a `next` link is advertised; a whole HTTP
conversation is a function from page number to `Page`.
-/

/-- A Python string, modelled as its list of characters. -/
abbrev PyStr := List Char

/-- A heterogeneous JSON/Python value, as far as the script inspects one:
`None`, a boolean, a string, or an integer. -/
inductive PyVal where
  | none
  | bool (b : Bool)
  | str (s : PyStr)
  | int (n : Int)
deriving DecidableEq, Repr

/-- The whitespace characters stripped by Python's `str.strip()` (ASCII part). -/
def isPySpace (c : Char) : Bool :=
  c = ' ' || c = '\t' || c = '\n' || c = '\r' || c = '\x0b' || c = '\x0c'

/-- Python `str.lstrip()`. -/
def lstrip (s : PyStr) : PyStr := s.dropWhile isPySpace

/-- Python `str.rstrip()`. -/
def rstrip (s : PyStr) : PyStr := (s.reverse.dropWhile isPySpace).reverse

/-- Python `str.strip()`: drop leading and trailing whitespace. -/
def pyStrip (s : PyStr) : PyStr := rstrip (lstrip s)

/-- Python `str.upper()` on a single character (ASCII range, which is all the
uppercasing the company field relies on). -/
def pyUpperChar (c : Char) : Char :=
  if 97 ≤ c.toNat ∧ c.toNat ≤ 122 then Char.ofNat (c.toNat - 32) else c

/-- Python `str.upper()`. -/
def pyUpper (s : PyStr) : PyStr := s.map pyUpperChar

/-- Result of `get_github_token`: either the process exits with a status code,
or a token string is returned. -/
inductive TokenResult where
  | exit (code : Nat)
  | token (t : PyStr)
deriving DecidableEq, Repr

/-- `get_github_token` from `code.py`: reads `GITHUB_TOKEN` from the
environment (`Option.none` models an unset variable), exits with status 1 when
the value is falsy (unset or the empty string), and otherwise returns the
stripped token.  Note the falsiness test happens before stripping. -/
def get_github_token (env : Option PyStr) : TokenResult :=
  match env with
  | Option.none => TokenResult.exit 1
  | Option.some t => if t = [] then TokenResult.exit 1 else TokenResult.token (pyStrip t)

/-- The `startswith('@')`-guarded `company[1:]` slice of `clean_company`:
drop one leading `'@'` when present. -/
def dropLeadingAt (s : PyStr) : PyStr :=
  if s.head? = Option.some '@' then s.tail else s

/-- `clean_company` from `code.py`: `''` for a falsy (absent or empty) value,
otherwise strip whitespace, drop one leading `'@'`, and uppercase. -/
def clean_company (company : Option PyStr) : PyStr :=
  match company with
  | Option.none => []
  | Option.some s =>
    if s = [] then []
    else pyUpper (dropLeadingAt (pyStrip s))

/-- `handle_boolean` from `code.py`: a genuine boolean maps to the lowercase
word `str(value).lower()`; everything else maps to the empty string. -/
def handle_boolean (value : PyVal) : PyStr :=
  match value with
  | PyVal.bool b => if b then ("true".data) else ("false".data)
  | _ => []

/-- One parsed HTTP response of a paginated endpoint: the status code, the
items parsed from the body (`data.get('items', [])` for the search endpoint,
`response.json()` for the listing endpoint), and whether `response.links`
advertises a `next` page. -/
structure Page (α : Type) where
  status : Nat
  items : List α
  hasNext : Bool
deriving DecidableEq

/-- Concatenation of the items of pages `start, start+1, ..., start+n-1` of a
response sequence. -/
def pagesItems {α : Type} (resp : Nat → Page α) (start n : Nat) : List α :=
  match n with
  | 0 => []
  | m + 1 => (resp start).items ++ pagesItems resp (start + 1) m

/-- The page numbers `start, start+1, ..., start+n-1`. -/
def pageList (start n : Nat) : List Nat :=
  match n with
  | 0 => []
  | m + 1 => start :: pageList (start + 1) m

/-- The `for page in range(1, max_pages + 1)` loop of `fetch_users`, together
with the list of page numbers actually requested.  Loop body: request the
page; on non-200 stop (keeping the accumulator); otherwise append the items
and continue only when a `next` link is advertised. -/
def fetch_users_go {α : Type} (resp : Nat → Page α) :
    Nat → Nat → List α → List Nat → List α × List Nat
  | 0, _, acc, reqs => (acc, reqs)
  | fuel + 1, page, acc, reqs =>
    if (resp page).status ≠ 200 then (acc, reqs ++ [page])
    else if (resp page).hasNext then
      fetch_users_go resp fuel (page + 1) (acc ++ (resp page).items) (reqs ++ [page])
    else (acc ++ (resp page).items, reqs ++ [page])

/-- `fetch_users` from `code.py`, abstracted over the HTTP conversation
(`resp` maps a page number to its response): the accumulated user items. -/
def fetch_users {α : Type} (resp : Nat → Page α) (max_pages : Nat) : List α :=
  (fetch_users_go resp max_pages 1 [] []).1

/-- The page numbers `fetch_users` actually requests. -/
def fetch_users_requests {α : Type} (resp : Nat → Page α) (max_pages : Nat) : List Nat :=
  (fetch_users_go resp max_pages 1 [] []).2

/-- The `while True` loop of `fetch_repositories`.  The loop has no syntactic
bound, so the embedding takes fuel; `Option.none` means the fuel ran out with
the loop still running (the termination theorem shows `max_repos + 1` fuel
always suffices).  Loop body: request the page; stop on non-200 or an empty
body; otherwise extend and stop once the accumulator reaches `max_repos` items
or no `next` link is advertised. -/
def fetch_repos_go {α : Type} (resp : Nat → Page α) (max_repos : Nat) :
    Nat → Nat → List α → Option (List α)
  | 0, _, _ => Option.none
  | fuel + 1, page, acc =>
    if (resp page).status ≠ 200 then Option.some acc
    else if (resp page).items.isEmpty then Option.some acc
    else if max_repos ≤ (acc ++ (resp page).items).length ∨ (resp page).hasNext = false then
      Option.some (acc ++ (resp page).items)
    else fetch_repos_go resp max_repos fuel (page + 1) (acc ++ (resp page).items)

/-- `fetch_repositories` from `code.py`, abstracted over the HTTP
conversation: run the loop from page 1 and truncate the result to
`max_repos` items (`repos[:max_repos]`). -/
def fetch_repositories {α : Type} (resp : Nat → Page α) (max_repos fuel : Nat) :
    Option (List α) :=
  Option.map (fun l => l.take max_repos) (fetch_repos_go resp max_repos fuel 1 [])

/-- A Python dictionary with string keys, as an association list. -/
abbrev PyDict := List (PyStr × PyVal)

/-- Python `d[k]` as a partial lookup: `Option.none` models a `KeyError`. -/
def dictGet (d : PyDict) (k : PyStr) : Option PyVal :=
  List.lookup k d

/-- The license expression of `main`:
`repo['license']['key'] if repo.get('license') else ''`.
An absent or falsy (empty-dict) license yields `''`; a present non-empty
license dict is indexed with `'key'`, which raises (`Option.none`) when that
key is missing. -/
def license_name_of (lic : Option PyDict) : Option PyVal :=
  match lic with
  | Option.none => Option.some (PyVal.str [])
  | Option.some d =>
    if d = [] then Option.some (PyVal.str [])
    else dictGet d ("key".data)

/-- The fields of a user-detail response that `main` reads.  `Option.none`
models an absent key (every access in the source uses `.get` or `or ''`,
so a plain optional field per key is faithful). -/
structure UserDetails where
  login : Option PyStr
  name : Option PyStr
  company : Option PyStr
  location : Option PyStr
  email : Option PyStr
  hireable : PyVal
  bio : Option PyStr
  public_repos : Option Int
  followers : Option Int
  following : Option Int
  created_at : Option PyStr
deriving DecidableEq

/-- The `user_data` row built by `main`. -/
structure UserRecord where
  login : PyStr
  name : PyStr
  company : PyStr
  location : PyStr
  email : PyStr
  hireable : PyStr
  bio : PyStr
  public_repos : Int
  followers : Int
  following : Int
  created_at : PyStr
deriving DecidableEq

/-- The `user_data` construction of `main` (defaults as in the source:
`.get(k, '')`, `.get(k) or ''`, `.get(k, 0)`). -/
def mkUserRecord (d : UserDetails) : UserRecord :=
  { login := d.login.getD []
    name := d.name.getD []
    company := clean_company d.company
    location := d.location.getD []
    email := d.email.getD []
    hireable := handle_boolean d.hireable
    bio := d.bio.getD []
    public_repos := d.public_repos.getD 0
    followers := d.followers.getD 0
    following := d.following.getD 0
    created_at := d.created_at.getD [] }

/-- The fields of one repository item that `main` reads. -/
structure Repo where
  full_name : Option PyStr
  created_at : Option PyStr
  stargazers_count : Option Int
  watchers_count : Option Int
  language : Option PyStr
  has_projects : PyVal
  has_wiki : PyVal
  license : Option PyDict
deriving DecidableEq

/-- The `repo_data` row built by `main`. -/
structure RepoRecord where
  login : PyStr
  full_name : PyStr
  created_at : PyStr
  stargazers_count : Int
  watchers_count : Int
  language : PyStr
  has_projects : PyStr
  has_wiki : PyStr
  license_name : PyVal
deriving DecidableEq

/-- The `repo_data` construction of `main`; `Option.none` models the
`KeyError` that `repo['license']['key']` can raise. -/
def mkRepoRecord (username : PyStr) (r : Repo) : Option RepoRecord :=
  match license_name_of r.license with
  | Option.none => Option.none
  | Option.some ln =>
    Option.some
      { login := username
        full_name := r.full_name.getD []
        created_at := r.created_at.getD []
        stargazers_count := r.stargazers_count.getD 0
        watchers_count := r.watchers_count.getD 0
        language := r.language.getD []
        has_projects := handle_boolean r.has_projects
        has_wiki := handle_boolean r.has_wiki
        license_name := ln }

/-- The `for repo in repos` loop of `main`: build one `repo_data` row per
repository, in order; a raised `KeyError` aborts (`Option.none`). -/
def build_repo_records (username : PyStr) : List Repo → Option (List RepoRecord)
  | [] => Option.some []
  | r :: rs =>
    match mkRepoRecord username r with
    | Option.none => Option.none
    | Option.some rec =>
      match build_repo_records username rs with
      | Option.none => Option.none
      | Option.some recs => Option.some (rec :: recs)

/-- The per-user loop of `main`, abstracted over the detail fetches
(`details u = Option.none` models `fetch_user_details` returning the falsy
`{}`, which makes `main` `continue` without emitting anything) and the
repository fetches.  Produces the `processed_users` and `all_repositories`
accumulators; `Option.none` models an uncaught exception. -/
def process_users (details : PyStr → Option UserDetails) (repos : PyStr → List Repo) :
    List PyStr → Option (List UserRecord × List RepoRecord)
  | [] => Option.some ([], [])
  | username :: rest =>
    match details username with
    | Option.none => process_users details repos rest
    | Option.some d =>
      match build_repo_records username (repos username) with
      | Option.none => Option.none
      | Option.some rrs =>
        match process_users details repos rest with
        | Option.none => Option.none
        | Option.some p => Option.some (mkUserRecord d :: p.1, rrs ++ p.2)

/-- A concrete conversation for witnesses: page 1 succeeds with one item and a
next link, every later page fails with status 500. -/
def respW : Nat → Page Nat :=
  fun p => if p = 1 then ⟨200, [10], true⟩ else ⟨500, [99], true⟩

/-- A concrete conversation whose pages always succeed, are empty, and
advertise a next link. -/
def respEmptyNext : Nat → Page Nat :=
  fun _ => ⟨200, [], true⟩

/-- A concrete conversation: every page succeeds with one item, and only page 1
advertises a next link. -/
def respNoNext : Nat → Page Nat :=
  fun p => ⟨200, [p], decide (p = 1)⟩

/-- A concrete conversation whose first page already overshoots a cap of 2. -/
def respOver : Nat → Page Nat :=
  fun _ => ⟨200, [1, 2, 3], true⟩

/-- A concrete repository item with every optional field absent. -/
def repoNoLicense : Repo :=
  { full_name := Option.none, created_at := Option.none, stargazers_count := Option.none,
    watchers_count := Option.none, language := Option.none, has_projects := PyVal.none,
    has_wiki := PyVal.none, license := Option.none }

/-- A concrete repository item whose license object carries a `'key'` entry. -/
def repoMIT : Repo :=
  { repoNoLicense with license := Option.some [(("key".data), PyVal.str ("mit".data))] }

/-- A concrete repository item whose license object is non-empty but has no
`'key'` entry. -/
def repoBadLicense : Repo :=
  { repoNoLicense with license := Option.some [(("name".data), PyVal.str ("MIT License".data))] }

/-- A concrete detail record for the search login `alice`. -/
def detailsAlice : UserDetails :=
  { login := Option.some ("alice".data), name := Option.none, company := Option.none,
    location := Option.none, email := Option.none, hireable := PyVal.none,
    bio := Option.none, public_repos := Option.none, followers := Option.none,
    following := Option.none, created_at := Option.none }

/-- A concrete detail fetcher: `alice` succeeds, everyone else fails. -/
def detailsC5 : PyStr → Option UserDetails :=
  fun v => if v = ("alice".data) then Option.some detailsAlice else Option.none

/-- A concrete repository fetcher: everyone owns one license-free repo. -/
def reposC5 : PyStr → List Repo :=
  fun _ => [repoNoLicense]

/-- The concrete search logins for the `main`-loop witness. -/
def usersC5 : List PyStr := [("alice".data), ("bob".data)]

/-- The repository row the `main` loop builds for `alice`'s license-free
repo. -/
def recC5 : RepoRecord :=
  { login := ("alice".data), full_name := [], created_at := [], stargazers_count := 0,
    watchers_count := 0, language := [], has_projects := [], has_wiki := [],
    license_name := PyVal.str [] }

/-- The output of the `main` loop on the concrete witness inputs. -/
def pC5 : List UserRecord × List RepoRecord := ([mkUserRecord detailsAlice], [recC5])

/-- C2: boolean normalization sends `true`/`false` to their lowercase string
forms and every non-boolean (including absent) value to the empty string. -/
theorem handle_boolean_spec :
    handle_boolean (PyVal.bool true) = ("true".data) ∧
    handle_boolean (PyVal.bool false) = ("false".data) ∧
    ∀ v : PyVal, (∀ b : Bool, v ≠ PyVal.bool b) → handle_boolean v = [] := by
  refine ⟨rfl, rfl, ?_⟩
  intro v hv
  cases v with
  | bool b => exact absurd rfl (hv b)
  | none => rfl
  | str s => rfl
  | int n => rfl

/-- C2 witness: the non-boolean clause of `handle_boolean_spec` instantiated
at the absent value. -/
theorem handle_boolean_spec_witness :
    handle_boolean PyVal.none = [] :=
  handle_boolean_spec.2.2 PyVal.none (by intro b h; cases h)

/-- C4 counterexample: normalizing the boolean `false` does not coincide with
normalizing the absent value, contrary to the claim. -/
theorem handle_boolean_false_ne_none :
    handle_boolean (PyVal.bool false) ≠ handle_boolean PyVal.none := by
  decide

/-- C4 amended: boolean normalization keeps `false` and absent distinguishable:
`false` maps to the five-character word while absence maps to the empty
string. -/
theorem handle_boolean_false_absent_distinct :
    handle_boolean (PyVal.bool false) = ("false".data) ∧
    handle_boolean PyVal.none = [] ∧
    handle_boolean (PyVal.bool false) ≠ [] := by
  refine ⟨rfl, rfl, ?_⟩
  decide

/-- C7 counterexample: a whitespace-only credential is empty after trimming,
yet the loader does not abort — it returns the empty token. -/
theorem get_github_token_whitespace_no_abort :
    pyStrip [' '] = [] ∧
    get_github_token (Option.some [' ']) = TokenResult.token [] := by
  constructor
  · decide
  · decide

/-- C7 amended: the loader aborts with exit status 1 exactly when the variable
is unset or the raw value is the empty string; any other value — even one that
trims to empty — is accepted and returned stripped of surrounding
whitespace. -/
theorem get_github_token_spec (env : Option PyStr) :
    (get_github_token env = TokenResult.exit 1 ↔ env = Option.none ∨ env = Option.some []) ∧
    (∀ t, env = Option.some t → t ≠ [] →
      get_github_token env = TokenResult.token (pyStrip t)) := by
  constructor
  · constructor
    · intro h
      cases env with
      | none => exact Or.inl rfl
      | some t =>
        by_cases ht : t = []
        · exact Or.inr (by rw [ht])
        · simp [get_github_token, ht] at h
    · intro h
      rcases h with h | h
      · rw [h]; rfl
      · rw [h]; rfl
  · intro t ht hne
    subst ht
    simp [get_github_token, hne]

/-- C7 witness: a token with surrounding whitespace is accepted and returned
trimmed. -/
theorem get_github_token_spec_witness :
    get_github_token (Option.some [' ', 'x']) = TokenResult.token ['x'] :=
  (get_github_token_spec (Option.some [' ', 'x'])).2 [' ', 'x'] rfl (by decide)

/-- Evaluating `Char.ofNat` below the surrogate range. -/
theorem toNat_char_ofNat (n : Nat) (h : n < 55296) : (Char.ofNat n).toNat = n := by
  have hv : n.isValidChar := Or.inl h
  simp [Char.ofNat, hv, Char.ofNatAux, Char.toNat, UInt32.toNat, BitVec.toNat_ofNatLt]

/-- ASCII uppercasing is idempotent on characters. -/
theorem pyUpperChar_idem (c : Char) : pyUpperChar (pyUpperChar c) = pyUpperChar c := by
  unfold pyUpperChar
  by_cases h : 97 ≤ c.toNat ∧ c.toNat ≤ 122
  · rw [if_pos h]
    have hd : (Char.ofNat (c.toNat - 32)).toNat = c.toNat - 32 :=
      toNat_char_ofNat _ (by omega)
    rw [if_neg (by rw [hd]; omega)]
  · rw [if_neg h, if_neg h]

/-- A character at or beyond code point 33 is not Python whitespace. -/
theorem isPySpace_false_of_ge (x : Char) (h : 33 ≤ x.toNat) : isPySpace x = false := by
  have hne : ∀ y : Char, y.toNat < 33 → x ≠ y := by
    intro y hy he
    subst he
    omega
  unfold isPySpace
  rw [decide_eq_false (hne ' ' (by decide)), decide_eq_false (hne '\t' (by decide)),
      decide_eq_false (hne '\n' (by decide)), decide_eq_false (hne '\r' (by decide)),
      decide_eq_false (hne '\x0b' (by decide)), decide_eq_false (hne '\x0c' (by decide))]
  rfl

/-- Uppercasing does not change whether a character is whitespace. -/
theorem isPySpace_pyUpperChar (c : Char) : isPySpace (pyUpperChar c) = isPySpace c := by
  unfold pyUpperChar
  by_cases h : 97 ≤ c.toNat ∧ c.toNat ≤ 122
  · rw [if_pos h]
    have hd : (Char.ofNat (c.toNat - 32)).toNat = c.toNat - 32 :=
      toNat_char_ofNat _ (by omega)
    rw [isPySpace_false_of_ge _ (by rw [hd]; omega), isPySpace_false_of_ge _ (by omega)]
  · rw [if_neg h]

/-- ASCII uppercasing is idempotent on strings. -/
theorem pyUpper_idem (s : PyStr) : pyUpper (pyUpper s) = pyUpper s := by
  induction s with
  | nil => rfl
  | cons c t ih =>
    simp only [pyUpper, List.map_cons] at ih ⊢
    rw [pyUpperChar_idem]
    exact congrArg _ ih

/-- The head of `dropWhile p` never satisfies `p`. -/
theorem head?_dropWhile_false {p : Char → Bool} {l : List Char} {a : Char}
    (h : (l.dropWhile p).head? = Option.some a) : p a = false := by
  induction l with
  | nil => cases h
  | cons x xs ih =>
    rw [List.dropWhile_cons] at h
    by_cases hp : p x = true
    · rw [if_pos hp] at h
      exact ih h
    · rw [if_neg hp] at h
      rw [List.head?_cons] at h
      cases h
      simpa using hp

/-- `dropWhile` is the identity when the head already fails the predicate. -/
theorem dropWhile_eq_self_of_head {p : Char → Bool} {l : List Char}
    (h : ∀ a, l.head? = Option.some a → p a = false) : l.dropWhile p = l := by
  cases l with
  | nil => rfl
  | cons x xs =>
    have hx := h x List.head?_cons
    rw [List.dropWhile_cons, if_neg (by simp [hx])]

/-- `lstrip` fixes a string whose first character is not whitespace. -/
theorem lstrip_eq_self {l : PyStr}
    (h : ∀ a, l.head? = Option.some a → isPySpace a = false) : lstrip l = l :=
  dropWhile_eq_self_of_head h

/-- `rstrip` fixes a string whose last character is not whitespace. -/
theorem rstrip_eq_self {l : PyStr}
    (h : ∀ a, l.getLast? = Option.some a → isPySpace a = false) : rstrip l = l := by
  unfold rstrip
  have hrev : l.reverse.dropWhile isPySpace = l.reverse :=
    dropWhile_eq_self_of_head (fun a ha => h a (by rwa [List.head?_reverse] at ha))
  rw [hrev, List.reverse_reverse]

/-- `strip` fixes a string with non-whitespace first and last characters. -/
theorem pyStrip_eq_self {l : PyStr}
    (hh : ∀ a, l.head? = Option.some a → isPySpace a = false)
    (hl : ∀ a, l.getLast? = Option.some a → isPySpace a = false) : pyStrip l = l := by
  unfold pyStrip
  rw [lstrip_eq_self hh, rstrip_eq_self hl]

/-- The last character of an `rstrip`ped string is not whitespace. -/
theorem getLast?_rstrip {l : PyStr} {a : Char}
    (h : (rstrip l).getLast? = Option.some a) : isPySpace a = false := by
  unfold rstrip at h
  rw [List.getLast?_reverse] at h
  exact head?_dropWhile_false h

/-- The last character of a `strip`ped string is not whitespace. -/
theorem getLast?_pyStrip {l : PyStr} {a : Char}
    (h : (pyStrip l).getLast? = Option.some a) : isPySpace a = false :=
  getLast?_rstrip h

/-- Dropping a leading `'@'` preserves the last character. -/
theorem getLast?_dropLeadingAt {l : PyStr} {a : Char}
    (h : (dropLeadingAt l).getLast? = Option.some a) : l.getLast? = Option.some a := by
  unfold dropLeadingAt at h
  by_cases hc : l.head? = Option.some '@'
  · rw [if_pos hc] at h
    cases l with
    | nil => cases h
    | cons x xs =>
      simp only [List.tail_cons] at h
      rw [List.getLast?_cons, h]
      rfl
  · rw [if_neg hc] at h
    exact h

/-- The last character of an uppercased string is the uppercasing of the last
character of the original. -/
theorem getLast?_pyUpper {l : PyStr} {a : Char}
    (h : (pyUpper l).getLast? = Option.some a) :
    ∃ b, l.getLast? = Option.some b ∧ a = pyUpperChar b := by
  unfold pyUpper at h
  rw [List.getLast?_map] at h
  cases hb : l.getLast? with
  | none => rw [hb] at h; cases h
  | some b =>
    rw [hb] at h
    simp only [Option.map_some'] at h
    cases h
    exact ⟨b, rfl, rfl⟩

/-- The last character of a cleaned company is never whitespace. -/
theorem getLast?_clean_company {s : Option PyStr} {a : Char}
    (h : (clean_company s).getLast? = Option.some a) : isPySpace a = false := by
  cases s with
  | none => cases h
  | some t =>
    rw [show clean_company (Option.some t) =
      (if t = [] then [] else pyUpper (dropLeadingAt (pyStrip t))) from rfl] at h
    by_cases ht : t = []
    · rw [if_pos ht] at h
      cases h
    · rw [if_neg ht] at h
      obtain ⟨b, hb, rfl⟩ := getLast?_pyUpper h
      rw [isPySpace_pyUpperChar]
      exact getLast?_pyStrip (getLast?_dropLeadingAt hb)

/-- Cleaned company strings are already uppercased. -/
theorem pyUpper_clean_company (s : Option PyStr) :
    pyUpper (clean_company s) = clean_company s := by
  cases s with
  | none => rfl
  | some t =>
    rw [show clean_company (Option.some t) =
      (if t = [] then [] else pyUpper (dropLeadingAt (pyStrip t))) from rfl]
    by_cases ht : t = []
    · rw [if_pos ht]
      rfl
    · rw [if_neg ht]
      exact pyUpper_idem _

/-- C3 counterexample: on the spec's own example string, cleaning twice
differs from cleaning once — the second pass strips the surviving `'@'`. -/
theorem clean_company_not_idem :
    clean_company (Option.some (clean_company (Option.some ("@@Acme".data)))) ≠
      clean_company (Option.some ("@@Acme".data)) := by
  decide

/-- C3 amended: company normalization is idempotent for every input whose
normalized form does not start with `'@'` or whitespace (a second pass can
only differ by stripping a further leading `'@'`, as for `"@@Acme"`, or
whitespace exposed by the `'@'`-strip, as for `"@ x"`). -/
theorem clean_company_idem_of_clean_head (s : Option PyStr)
    (h : ∀ c, (clean_company s).head? = Option.some c →
      c ≠ '@' ∧ isPySpace c = false) :
    clean_company (Option.some (clean_company s)) = clean_company s := by
  cases hr : clean_company s with
  | nil => rfl
  | cons c t =>
    have hc := h c (by rw [hr, List.head?_cons])
    have hlast : ∀ a, (c :: t).getLast? = Option.some a → isPySpace a = false := by
      intro a ha
      exact getLast?_clean_company (s := s) (by rw [hr]; exact ha)
    show (if (c :: t) = ([] : PyStr) then ([] : PyStr)
      else pyUpper (dropLeadingAt (pyStrip (c :: t)))) = c :: t
    rw [if_neg (by simp)]
    have hstrip : pyStrip (c :: t) = c :: t := by
      refine pyStrip_eq_self ?_ hlast
      intro a ha
      rw [List.head?_cons] at ha
      cases ha
      exact hc.2
    rw [hstrip]
    unfold dropLeadingAt
    rw [if_neg (by rw [List.head?_cons]; exact fun he => hc.1 (Option.some.inj he))]
    have hu := pyUpper_clean_company s
    rw [hr] at hu
    exact hu

/-- C3 witness: the amended idempotence applied to a concrete company string
whose cleaned form starts with a letter. -/
theorem clean_company_idem_witness :
    clean_company (Option.some (clean_company (Option.some (" @acme ".data)))) =
      clean_company (Option.some (" @acme ".data)) := by
  refine clean_company_idem_of_clean_head (Option.some (" @acme ".data)) ?_
  intro c hc
  have he : (clean_company (Option.some (" @acme ".data))).head? = Option.some 'A' := by
    decide
  rw [he] at hc
  cases hc
  decide

/-- One-step unfolding of the users loop. -/
theorem fetch_users_go_succ {α : Type} (resp : Nat → Page α) (fuel page : Nat)
    (acc : List α) (reqs : List Nat) :
    fetch_users_go resp (fuel + 1) page acc reqs =
      if (resp page).status ≠ 200 then (acc, reqs ++ [page])
      else if (resp page).hasNext then
        fetch_users_go resp fuel (page + 1) (acc ++ (resp page).items) (reqs ++ [page])
      else (acc ++ (resp page).items, reqs ++ [page]) := rfl

/-- One-step unfolding of the repositories loop. -/
theorem fetch_repos_go_succ {α : Type} (resp : Nat → Page α) (max_repos fuel page : Nat)
    (acc : List α) :
    fetch_repos_go resp max_repos (fuel + 1) page acc =
      if (resp page).status ≠ 200 then Option.some acc
      else if (resp page).items.isEmpty then Option.some acc
      else if max_repos ≤ (acc ++ (resp page).items).length ∨ (resp page).hasNext = false then
        Option.some (acc ++ (resp page).items)
      else fetch_repos_go resp max_repos fuel (page + 1) (acc ++ (resp page).items) := rfl

/-- `pagesItems` over one more page at the front. -/
theorem pagesItems_succ {α : Type} (resp : Nat → Page α) (start m : Nat) :
    pagesItems resp start (m + 1) = (resp start).items ++ pagesItems resp (start + 1) m := rfl

/-- `pageList` over one more page at the front. -/
theorem pageList_succ (start m : Nat) :
    pageList start (m + 1) = start :: pageList (start + 1) m := rfl

/-- Membership in a page range. -/
theorem mem_pageList {m : Nat} : ∀ {start n : Nat}, m ∈ pageList start n ↔ start ≤ m ∧ m < start + n := by
  intro start n
  induction n generalizing start with
  | zero => simp [pageList]
  | succ n ih =>
    rw [pageList_succ]
    simp only [List.mem_cons, ih]
    omega

/-- If every page before `k` succeeds with a next link and page `k` fails, the
users loop returns the items of the pages before `k` and has requested exactly
the pages up to `k`. -/
theorem fetch_users_go_stop_error {α : Type} (resp : Nat → Page α) (k : Nat)
    (hk : (resp k).status ≠ 200) :
    ∀ fuel page acc reqs, page ≤ k → k < page + fuel →
      (∀ j, page ≤ j → j < k → (resp j).status = 200 ∧ (resp j).hasNext = true) →
      fetch_users_go resp fuel page acc reqs =
        (acc ++ pagesItems resp page (k - page), reqs ++ pageList page (k - page + 1)) := by
  intro fuel
  induction fuel with
  | zero =>
    intro page acc reqs h1 h2 h3
    omega
  | succ fuel ih =>
    intro page acc reqs h1 h2 h3
    rw [fetch_users_go_succ]
    by_cases hpk : page = k
    · subst hpk
      rw [if_pos hk]
      simp [Nat.sub_self, pagesItems, pageList]
    · have hlt : page < k := by omega
      obtain ⟨hst, hnx⟩ := h3 page (Nat.le_refl _) hlt
      rw [if_neg (by simp [hst]), if_pos hnx,
        ih (page + 1) (acc ++ (resp page).items) (reqs ++ [page]) (by omega) (by omega)
          (fun j hj1 hj2 => h3 j (by omega) hj2)]
      have e1 : k - page = (k - (page + 1)) + 1 := by omega
      rw [e1]
      simp [pagesItems_succ, pageList_succ, List.append_assoc]

/-- If every page before `k` succeeds with a next link and page `k` succeeds
without one, the users loop returns the items of pages up to `k` and has
requested exactly the pages up to `k`. -/
theorem fetch_users_go_stop_nonext {α : Type} (resp : Nat → Page α) (k : Nat)
    (hst : (resp k).status = 200) (hnx : (resp k).hasNext = false) :
    ∀ fuel page acc reqs, page ≤ k → k < page + fuel →
      (∀ j, page ≤ j → j < k → (resp j).status = 200 ∧ (resp j).hasNext = true) →
      fetch_users_go resp fuel page acc reqs =
        (acc ++ pagesItems resp page (k - page + 1), reqs ++ pageList page (k - page + 1)) := by
  intro fuel
  induction fuel with
  | zero =>
    intro page acc reqs h1 h2 h3
    omega
  | succ fuel ih =>
    intro page acc reqs h1 h2 h3
    rw [fetch_users_go_succ]
    by_cases hpk : page = k
    · subst hpk
      rw [if_neg (by simp [hst]), if_neg (by simp [hnx])]
      simp [Nat.sub_self, pagesItems, pageList]
    · have hlt : page < k := by omega
      obtain ⟨hst', hnx'⟩ := h3 page (Nat.le_refl _) hlt
      rw [if_neg (by simp [hst']), if_pos hnx',
        ih (page + 1) (acc ++ (resp page).items) (reqs ++ [page]) (by omega) (by omega)
          (fun j hj1 hj2 => h3 j (by omega) hj2)]
      have e1 : k - page = (k - (page + 1)) + 1 := by omega
      rw [e1]
      simp [pagesItems_succ, pageList_succ, List.append_assoc]

/-- If every page before `k` succeeds non-empty with a next link while the
accumulated count stays below the cap, and page `k` fails, the repositories
loop stops at `k` with the items of the pages before `k`. -/
theorem fetch_repos_go_stop_error {α : Type} (resp : Nat → Page α) (max_repos k : Nat)
    (hk : (resp k).status ≠ 200) :
    ∀ fuel page acc, page ≤ k → k < page + fuel →
      (∀ j, page ≤ j → j < k → (resp j).status = 200 ∧ (resp j).items ≠ [] ∧
        (resp j).hasNext = true ∧
        (acc ++ pagesItems resp page (j - page + 1)).length < max_repos) →
      fetch_repos_go resp max_repos fuel page acc =
        Option.some (acc ++ pagesItems resp page (k - page)) := by
  intro fuel
  induction fuel with
  | zero =>
    intro page acc h1 h2 h3
    omega
  | succ fuel ih =>
    intro page acc h1 h2 h3
    rw [fetch_repos_go_succ]
    by_cases hpk : page = k
    · subst hpk
      rw [if_pos hk]
      simp [Nat.sub_self, pagesItems]
    · have hlt : page < k := by omega
      obtain ⟨hst, hne, hnx, hlen⟩ := h3 page (Nat.le_refl _) hlt
      have hlen1 : (acc ++ (resp page).items).length < max_repos := by
        rw [show page - page + 1 = 0 + 1 from by omega, pagesItems_succ] at hlen
        simpa [pagesItems] using hlen
      rw [if_neg (by simp [hst]), if_neg (by simp [List.isEmpty_eq_false.mpr hne]),
        if_neg (by
          intro hcon
          rcases hcon with hc | hc
          · omega
          · simp [hnx] at hc)]
      have hall : ∀ j, page + 1 ≤ j → j < k → (resp j).status = 200 ∧
          (resp j).items ≠ [] ∧ (resp j).hasNext = true ∧
          ((acc ++ (resp page).items) ++
            pagesItems resp (page + 1) (j - (page + 1) + 1)).length < max_repos := by
        intro j hj1 hj2
        obtain ⟨a1, a2, a3, a4⟩ := h3 j (by omega) hj2
        refine ⟨a1, a2, a3, ?_⟩
        rw [show j - page + 1 = (j - (page + 1) + 1) + 1 from by omega,
          pagesItems_succ] at a4
        simpa [List.append_assoc] using a4
      rw [ih (page + 1) (acc ++ (resp page).items) (by omega) (by omega) hall]
      have e1 : k - page = (k - (page + 1)) + 1 := by omega
      rw [e1]
      simp [pagesItems_succ, List.append_assoc]

/-- C10 core: the repositories loop terminates once the fuel exceeds the gap to
the cap, because every continuing iteration adds at least one item while the
accumulator is still below the cap. -/
theorem fetch_repos_go_total {α : Type} (resp : Nat → Page α) (max_repos : Nat) :
    ∀ fuel page acc, acc.length ≤ max_repos → max_repos + 1 ≤ acc.length + fuel →
      (fetch_repos_go resp max_repos fuel page acc).isSome = true := by
  intro fuel
  induction fuel with
  | zero =>
    intro page acc h1 h2
    omega
  | succ fuel ih =>
    intro page acc h1 h2
    rw [fetch_repos_go_succ]
    by_cases c1 : (resp page).status ≠ 200
    · rw [if_pos c1]
      rfl
    · rw [if_neg c1]
      by_cases c2 : (resp page).items.isEmpty
      · rw [if_pos c2]
        rfl
      · rw [if_neg c2]
        by_cases c3 : max_repos ≤ (acc ++ (resp page).items).length ∨
            (resp page).hasNext = false
        · rw [if_pos c3]
          rfl
        · rw [if_neg c3]
          have hne : (resp page).items ≠ [] :=
            List.isEmpty_eq_false.mp (by simpa using c2)
          have h0 : 0 < (resp page).items.length := List.length_pos.mpr hne
          have hlen : (acc ++ (resp page).items).length < max_repos := by
            rcases Nat.lt_or_ge ((acc ++ (resp page).items).length) max_repos with h | h
            · exact h
            · exact absurd (Or.inl h) c3
          rw [List.length_append] at hlen
          apply ih
          · rw [List.length_append]
            omega
          · rw [List.length_append]
            omega

/-- More fuel never changes a result the repositories loop already reached. -/
theorem fetch_repos_go_mono {α : Type} (resp : Nat → Page α) (max_repos : Nat) :
    ∀ fuel fuel2 page acc l, fuel ≤ fuel2 →
      fetch_repos_go resp max_repos fuel page acc = Option.some l →
      fetch_repos_go resp max_repos fuel2 page acc = Option.some l := by
  intro fuel
  induction fuel with
  | zero =>
    intro fuel2 page acc l hle h
    rw [show fetch_repos_go resp max_repos 0 page acc = Option.none from rfl] at h
    exact Option.noConfusion h
  | succ fuel ih =>
    intro fuel2 page acc l hle h
    obtain ⟨fuel2p, rfl⟩ : ∃ f, fuel2 = f + 1 := ⟨fuel2 - 1, by omega⟩
    rw [fetch_repos_go_succ] at h ⊢
    by_cases c1 : (resp page).status ≠ 200
    · rw [if_pos c1] at h ⊢
      exact h
    · rw [if_neg c1] at h ⊢
      by_cases c2 : (resp page).items.isEmpty
      · rw [if_pos c2] at h ⊢
        exact h
      · rw [if_neg c2] at h ⊢
        by_cases c3 : max_repos ≤ (acc ++ (resp page).items).length ∨
            (resp page).hasNext = false
        · rw [if_pos c3] at h ⊢
          exact h
        · rw [if_neg c3] at h ⊢
          exact ih fuel2p (page + 1) (acc ++ (resp page).items) l (by omega) h

/-- C1: for both paginated fetchers, a non-success response on page `k` — all
earlier pages having succeeded and continued — stops pagination without
raising and yields exactly the items of pages `1..k-1`: the failing page
contributes no items. -/
theorem fetch_nonsuccess_keeps_partial {α : Type} (respU respR : Nat → Page α)
    (k max_pages max_repos fuel : Nat) (hk1 : 1 ≤ k) :
    ((k ≤ max_pages ∧ (respU k).status ≠ 200 ∧
        (∀ j, 1 ≤ j → j < k → (respU j).status = 200 ∧ (respU j).hasNext = true)) →
      fetch_users respU max_pages = pagesItems respU 1 (k - 1)) ∧
    ((k ≤ fuel ∧ (respR k).status ≠ 200 ∧
        (∀ j, 1 ≤ j → j < k → (respR j).status = 200 ∧ (respR j).items ≠ [] ∧
          (respR j).hasNext = true ∧ (pagesItems respR 1 j).length < max_repos)) →
      fetch_repositories respR max_repos fuel = Option.some (pagesItems respR 1 (k - 1))) := by
  constructor
  · rintro ⟨hkm, hke, hok⟩
    unfold fetch_users
    rw [fetch_users_go_stop_error respU k hke max_pages 1 [] [] hk1 (by omega) hok]
    simp
  · rintro ⟨hkf, hke, hok⟩
    unfold fetch_repositories
    have hall : ∀ j, 1 ≤ j → j < k → (respR j).status = 200 ∧ (respR j).items ≠ [] ∧
        (respR j).hasNext = true ∧
        (([] : List α) ++ pagesItems respR 1 (j - 1 + 1)).length < max_repos := by
      intro j hj1 hj2
      obtain ⟨a1, a2, a3, a4⟩ := hok j hj1 hj2
      refine ⟨a1, a2, a3, ?_⟩
      rw [show j - 1 + 1 = j from by omega]
      simpa using a4
    rw [fetch_repos_go_stop_error respR max_repos k hke fuel 1 [] hk1 (by omega) hall]
    rw [Option.map_some']
    simp only [List.nil_append]
    congr 1
    apply List.take_of_length_le
    by_cases hk2 : k = 1
    · subst hk2
      rw [show pagesItems respR 1 (1 - 1) = [] from rfl]
      simp
    · have hlast := (hok (k - 1) (by omega) (by omega)).2.2.2
      omega

/-- C1 witness: with page 1 succeeding (one item, next link) and page 2
failing, both fetchers return exactly the items of page 1. -/
theorem fetch_nonsuccess_keeps_partial_witness :
    fetch_users respW 3 = pagesItems respW 1 1 ∧
    fetch_repositories respW 5 4 = Option.some (pagesItems respW 1 1) := by
  have h := fetch_nonsuccess_keeps_partial respW respW 2 3 5 4 (by omega)
  refine ⟨h.1 ⟨by omega, by decide, ?_⟩, h.2 ⟨by omega, by decide, ?_⟩⟩
  · intro j h1 h2
    have hj : j = 1 := by omega
    subst hj
    exact ⟨by decide, by decide⟩
  · intro j h1 h2
    have hj : j = 1 := by omega
    subst hj
    exact ⟨by decide, by decide, by decide, by decide⟩

/-- C6: the repository fetcher returns at most `max_repos` items — its result
is the loop accumulation truncated to the cap, and when the accumulation
overshoots the cap the result has exactly `max_repos` items. -/
theorem fetch_repositories_le_cap {α : Type} (resp : Nat → Page α)
    (max_repos fuel : Nat) (acc res : List α)
    (hg : fetch_repos_go resp max_repos fuel 1 [] = Option.some acc)
    (h : fetch_repositories resp max_repos fuel = Option.some res) :
    res.length ≤ max_repos ∧ res = acc.take max_repos ∧
    (max_repos ≤ acc.length → res.length = max_repos) := by
  unfold fetch_repositories at h
  rw [hg, Option.map_some'] at h
  cases h
  refine ⟨?_, rfl, ?_⟩
  · rw [List.length_take]
    omega
  · intro hge
    rw [List.length_take]
    omega

/-- C6 witness: a cap of 2 with a first page of three items — the loop
accumulates three items and the result is truncated to exactly two. -/
theorem fetch_repositories_le_cap_witness :
    ([1, 2] : List Nat).length ≤ 2 ∧ ([1, 2] : List Nat) = [1, 2, 3].take 2 ∧
    (2 ≤ ([1, 2, 3] : List Nat).length → ([1, 2] : List Nat).length = 2) :=
  fetch_repositories_le_cap respOver 2 1 [1, 2, 3] [1, 2] (by decide) (by decide)

/-- C9 counterexample: every page is a successful empty page advertising a next
link; after the empty page 1 the search fetcher still requests page 2,
contrary to the claim that an empty page stops pagination. -/
theorem fetch_users_empty_page_still_requests :
    (respEmptyNext 1).status = 200 ∧ (respEmptyNext 1).items = [] ∧
    2 ∈ fetch_users_requests respEmptyNext 2 := by
  refine ⟨rfl, rfl, ?_⟩
  decide

/-- C9 amended: the search fetcher stops at page `k` exactly through the
no-next-link condition (or the cap, or an error): when the successful page `k`
advertises no next link, the requested pages are `1..k` — in particular page
`k+1` is never requested — and the items of pages `1..k` are returned.  An
empty page with a next link does not stop pagination. -/
theorem fetch_users_stops_at_no_next {α : Type} (resp : Nat → Page α)
    (max_pages k : Nat) (hk1 : 1 ≤ k) (hkm : k ≤ max_pages)
    (hok : ∀ j, 1 ≤ j → j < k → (resp j).status = 200 ∧ (resp j).hasNext = true)
    (hst : (resp k).status = 200) (hnx : (resp k).hasNext = false) :
    fetch_users_requests resp max_pages = pageList 1 k ∧
    (k + 1) ∉ fetch_users_requests resp max_pages ∧
    fetch_users resp max_pages = pagesItems resp 1 k := by
  have hgo := fetch_users_go_stop_nonext resp k hst hnx max_pages 1 [] [] hk1 (by omega) hok
  rw [show k - 1 + 1 = k from by omega] at hgo
  refine ⟨?_, ?_, ?_⟩
  · unfold fetch_users_requests
    rw [hgo]
    simp
  · unfold fetch_users_requests
    rw [hgo]
    simp only [List.nil_append, mem_pageList]
    omega
  · unfold fetch_users
    rw [hgo]
    simp

/-- C9 witness: page 1 succeeds with a next link, page 2 succeeds without one;
the fetcher requests exactly pages 1 and 2 and returns their items. -/
theorem fetch_users_stops_at_no_next_witness :
    fetch_users_requests respNoNext 5 = pageList 1 2 ∧
    (3 : Nat) ∉ fetch_users_requests respNoNext 5 ∧
    fetch_users respNoNext 5 = pagesItems respNoNext 1 2 := by
  have h := fetch_users_stops_at_no_next respNoNext 5 2 (by omega) (by omega)
    (by intro j h1 h2
        have hj : j = 1 := by omega
        subst hj
        exact ⟨by decide, by decide⟩)
    (by decide) (by decide)
  exact ⟨h.1, h.2.1, h.2.2⟩

/-- C10: for every response sequence and cap, the repositories loop finishes
within `max_repos + 1` iterations — so at most `max_repos + 1` page requests —
and giving it any more fuel cannot change the result. -/
theorem fetch_repositories_terminates {α : Type} (resp : Nat → Page α) (max_repos : Nat) :
    (fetch_repositories resp max_repos (max_repos + 1)).isSome = true ∧
    ∀ fuel, max_repos + 1 ≤ fuel →
      fetch_repositories resp max_repos fuel =
        fetch_repositories resp max_repos (max_repos + 1) := by
  have h1 : (fetch_repos_go resp max_repos (max_repos + 1) 1 []).isSome = true :=
    fetch_repos_go_total resp max_repos (max_repos + 1) 1 [] (by simp) (by simp)
  obtain ⟨l, hl⟩ := Option.isSome_iff_exists.mp h1
  constructor
  · unfold fetch_repositories
    rw [hl]
    rfl
  · intro fuel hf
    unfold fetch_repositories
    rw [hl, fetch_repos_go_mono resp max_repos (max_repos + 1) fuel 1 [] l hf hl]

/-- C10 witness: with a cap of 2 the loop finishes within 3 iterations on the
overshooting conversation, and fuel 5 gives the same result as fuel 3. -/
theorem fetch_repositories_terminates_witness :
    (fetch_repositories respOver 2 3).isSome = true ∧
    fetch_repositories respOver 2 5 = fetch_repositories respOver 2 3 := by
  have h := fetch_repositories_terminates respOver 2
  exact ⟨h.1, h.2 5 (by omega)⟩

/-- C8 counterexample: a repository mapping whose license object is present
and non-empty but lacks the `'key'` entry makes the record construction raise
a `KeyError` — so the access does not stay error-free for every input
repository mapping. -/
theorem mkRepoRecord_keyerror :
    mkRepoRecord [] repoBadLicense = Option.none := by
  decide

/-- C8 amended: building a repository record never errors provided the license
object, when present and non-empty, contains a `'key'` entry (which the API
guarantees); in particular an absent license parent yields the empty string
for `license_name` without error.  A present non-empty license mapping
without `'key'` raises instead. -/
theorem mkRepoRecord_license_safe (username : PyStr) (r : Repo)
    (hkey : ∀ d, r.license = Option.some d → d ≠ [] →
      (dictGet d ("key".data)).isSome = true) :
    (mkRepoRecord username r).isSome = true ∧
    (r.license = Option.none →
      mkRepoRecord username r = Option.some
        { login := username
          full_name := r.full_name.getD []
          created_at := r.created_at.getD []
          stargazers_count := r.stargazers_count.getD 0
          watchers_count := r.watchers_count.getD 0
          language := r.language.getD []
          has_projects := handle_boolean r.has_projects
          has_wiki := handle_boolean r.has_wiki
          license_name := PyVal.str [] }) := by
  constructor
  · cases hl : license_name_of r.license with
    | none =>
      unfold license_name_of at hl
      cases hlic : r.license with
      | none =>
        rw [hlic] at hl
        cases hl
      | some d =>
        rw [hlic] at hl
        have hl2 : (if d = [] then Option.some (PyVal.str [])
          else dictGet d ("key".data)) = Option.none := hl
        by_cases hd : d = []
        · rw [if_pos hd] at hl2
          cases hl2
        · rw [if_neg hd] at hl2
          have hks := hkey d hlic hd
          rw [hl2] at hks
          cases hks
    | some ln =>
      unfold mkRepoRecord
      rw [hl]
      rfl
  · intro hnone
    unfold mkRepoRecord
    rw [show license_name_of r.license = Option.some (PyVal.str []) from by rw [hnone]; rfl]

/-- C8 witness: the amended safety applied to a repo with a keyed license and
to a repo with no license at all. -/
theorem mkRepoRecord_license_safe_witness :
    (mkRepoRecord [] repoMIT).isSome = true ∧
    (mkRepoRecord [] repoNoLicense).isSome = true := by
  constructor
  · exact (mkRepoRecord_license_safe [] repoMIT (by
      intro d hd hne
      rw [show repoMIT.license =
        Option.some [(("key".data), PyVal.str ("mit".data))] from rfl] at hd
      cases hd
      decide)).1
  · exact (mkRepoRecord_license_safe [] repoNoLicense (by
      intro d hd hne
      rw [show repoNoLicense.license = Option.none from rfl] at hd
      exact Option.noConfusion hd)).1

/-- A record built by `mkRepoRecord` for `username` has `username` as its
`login` field. -/
theorem mkRepoRecord_login {username : PyStr} {r : Repo} {rec : RepoRecord}
    (h : mkRepoRecord username r = Option.some rec) : rec.login = username := by
  unfold mkRepoRecord at h
  cases hl : license_name_of r.license with
  | none =>
    rw [hl] at h
    cases h
  | some ln =>
    rw [hl] at h
    cases h
    rfl

/-- Every record in a successfully built repository batch for `username`
carries `username` as its login. -/
theorem build_repo_records_login (username : PyStr) :
    ∀ rs recs, build_repo_records username rs = Option.some recs →
      ∀ rec, rec ∈ recs → rec.login = username := by
  intro rs
  induction rs with
  | nil =>
    intro recs h rec hrec
    rw [show build_repo_records username [] = Option.some [] from rfl] at h
    cases h
    simp at hrec
  | cons r rs ih =>
    intro recs h rec hrec
    rw [show build_repo_records username (r :: rs) =
      (match mkRepoRecord username r with
       | Option.none => Option.none
       | Option.some rec =>
         match build_repo_records username rs with
         | Option.none => Option.none
         | Option.some recs => Option.some (rec :: recs)) from rfl] at h
    cases hm : mkRepoRecord username r with
    | none =>
      rw [hm] at h
      cases h
    | some rec0 =>
      rw [hm] at h
      cases hb : build_repo_records username rs with
      | none =>
        rw [hb] at h
        cases h
      | some recs0 =>
        rw [hb] at h
        cases h
        rcases List.mem_cons.mp hrec with h1 | h1
        · subst h1
          exact mkRepoRecord_login hm
        · exact ih recs0 hb rec h1

/-- C5: in the final tables, every repository row's `login` is a search login
whose detail fetch succeeded and whose user row is present; and for a user `U`
whose detail fetch failed there is no repository row with `login = U`, and no
user row was built from `U` — every user row comes from some other,
successfully fetched, search login. -/
theorem repos_only_for_fetched_users
    (details : PyStr → Option UserDetails) (repos : PyStr → List Repo)
    (users : List PyStr) (U : PyStr)
    (p : List UserRecord × List RepoRecord)
    (hp : process_users details repos users = Option.some p)
    (hU : details U = Option.none) :
    (∀ r, r ∈ p.2 → (details r.login).isSome = true ∧
      ∃ d, details r.login = Option.some d ∧ mkUserRecord d ∈ p.1) ∧
    (∀ r, r ∈ p.2 → r.login ≠ U) ∧
    (∀ u, u ∈ p.1 → ∃ v, v ∈ users ∧ v ≠ U ∧
      ∃ d, details v = Option.some d ∧ u = mkUserRecord d) := by
  induction users generalizing p with
  | nil =>
    rw [show process_users details repos [] = Option.some ([], []) from rfl] at hp
    cases hp
    refine ⟨?_, ?_, ?_⟩ <;> intro x hx <;> simp at hx
  | cons username rest ih =>
    rw [show process_users details repos (username :: rest) =
      (match details username with
       | Option.none => process_users details repos rest
       | Option.some d =>
         match build_repo_records username (repos username) with
         | Option.none => Option.none
         | Option.some rrs =>
           match process_users details repos rest with
           | Option.none => Option.none
           | Option.some q => Option.some (mkUserRecord d :: q.1, rrs ++ q.2)) from rfl] at hp
    cases hd : details username with
    | none =>
      rw [hd] at hp
      obtain ⟨c1, c2, c3⟩ := ih p hp
      refine ⟨c1, c2, ?_⟩
      intro u hu
      obtain ⟨v, hv1, hv2, d, hd1, hd2⟩ := c3 u hu
      exact ⟨v, List.mem_cons_of_mem _ hv1, hv2, d, hd1, hd2⟩
    | some d0 =>
      rw [hd] at hp
      cases hb : build_repo_records username (repos username) with
      | none =>
        rw [hb] at hp
        cases hp
      | some rrs =>
        rw [hb] at hp
        cases hq : process_users details repos rest with
        | none =>
          rw [hq] at hp
          cases hp
        | some q =>
          rw [hq] at hp
          cases hp
          obtain ⟨c1, c2, c3⟩ := ih q hq
          have huser : username ≠ U := by
            intro he
            rw [he, hU] at hd
            cases hd
          refine ⟨?_, ?_, ?_⟩
          · intro r hr
            rcases List.mem_append.mp hr with h1 | h1
            · rw [build_repo_records_login username (repos username) rrs hb r h1]
              refine ⟨by rw [hd]; rfl, d0, hd, List.mem_cons_self _ _⟩
            · obtain ⟨hs, d1, hd1, hm1⟩ := c1 r h1
              exact ⟨hs, d1, hd1, List.mem_cons_of_mem _ hm1⟩
          · intro r hr
            rcases List.mem_append.mp hr with h1 | h1
            · rw [build_repo_records_login username (repos username) rrs hb r h1]
              exact huser
            · exact c2 r h1
          · intro u hu
            rcases List.mem_cons.mp hu with h1 | h1
            · exact ⟨username, List.mem_cons_self _ _, huser, d0, hd, h1⟩
            · obtain ⟨v, hv1, hv2, d1, hd1, hd2⟩ := c3 u h1
              exact ⟨v, List.mem_cons_of_mem _ hv1, hv2, d1, hd1, hd2⟩

/-- C5 witness: on the concrete run where `alice` succeeds and `bob`'s detail
fetch fails, the only repository row belongs to `alice`, not `bob`. -/
theorem repos_only_for_fetched_users_witness :
    recC5.login ≠ ("bob".data) := by
  have h := repos_only_for_fetched_users detailsC5 reposC5 usersC5 ("bob".data) pC5
    (by decide) (by decide)
  exact h.2.1 recC5 (by decide)
